import Mathlib

/-!
Shallow embedding of the WinPSP pre-shutdown processor (src/main.go) and
proofs about its components: the command-line tokenizer (`splitCommandLine`),
the log rotator (`rotateLogs`), the configuration normalizer (`loadConfig`),
the bounded process runner (`runCommandWithTimeout`) and the shutdown cycle
controller (`handleShutdownOnce`).

Go strings are modelled as Lean `String`s.  Go compares and scans strings
byte-by-byte; every pattern scanned for in this program is plain ASCII, and
UTF-8 byte order coincides with code-point order, so the `List Char` level
is faithful for everything the program does.
-/

namespace WinPSP

/-- Character code of the opening curly brace. -/
def lbrace : Char := Char.ofNat 123

/-- Character code of the closing curly brace. -/
def rbrace : Char := Char.ofNat 125

/-- Byte-wise lexicographic strict order on character lists, as Go's `<` on
strings (UTF-8 byte order equals code-point order). -/
def charsLt : List Char → List Char → Bool
  | _, [] => false
  | [], _ :: _ => true
  | a :: as, b :: bs => if a < b then true else if b < a then false else charsLt as bs

/-- Byte-wise lexicographic order on character lists (`a <= b` in Go). -/
def charsLe : List Char → List Char → Bool
  | [], _ => true
  | _ :: _, [] => false
  | a :: as, b :: bs => if a < b then true else if b < a then false else charsLe as bs

/-- `pat` is a leading segment of `hay` (Go `strings.HasPrefix` at byte level). -/
def charsLead : List Char → List Char → Bool
  | [], _ => true
  | _ :: _, [] => false
  | p :: ps, h :: hs => p = h && charsLead ps hs

/-- `pat` occurs contiguously inside `hay` (Go `strings.Contains`). -/
def charsHaveSub (pat : List Char) : List Char → Bool
  | [] => charsLead pat []
  | h :: hs => charsLead pat (h :: hs) || charsHaveSub pat hs

/-- Go `strings.Contains(s, pat)`. -/
def strContains (s pat : String) : Bool := charsHaveSub pat.data s.data

/-- Go `strings.HasPrefix(s, pat)`. -/
def strStarts (s pat : String) : Bool := charsLead pat.data s.data

/-- Go `strings.HasSuffix(s, pat)`. -/
def strEnds (s pat : String) : Bool := charsLead pat.data.reverse s.data.reverse

/-- ASCII whitespace recognised by `strings.TrimSpace`.  (Go also trims a few
Unicode space code points; the configuration documents considered here are
ASCII, where the two notions agree.) -/
def isSpaceChar (c : Char) : Bool :=
  c = ' ' || c = '\t' || c = '\n' || c = '\r' || c = Char.ofNat 11 || c = Char.ofNat 12

/-- Go `strings.TrimSpace`. -/
def trimSpace (s : String) : String :=
  String.mk (((s.data.dropWhile isSpaceChar).reverse.dropWhile isSpaceChar).reverse)

/-- The error values produced inside `runCommandWithTimeout` and
`splitCommandLine` in src/main.go: "unmatched quotes in command line",
"empty command line", a spawn failure from `exec`, a non-zero exit
(`exec.ExitError`), and `context.DeadlineExceeded` surfacing from a kill. -/
inductive ErrKind where
  | unmatchedQuotes
  | emptyCommandLine
  | launchErr
  | exitErr
  | deadlineErr
deriving DecidableEq, Repr

/-- The scanning loop of `splitCommandLine` (src/main.go): `args` are the
tokens already emitted, `cur` the token being accumulated, `inQ` the
"inside quoted span" flag.  A quote toggles `inQ` and is consumed; an
unquoted space flushes a non-empty `cur`; every other character (a quoted
space included) is appended to `cur`. -/
def splitLoop : List Char → List (List Char) → List Char → Bool →
    Except ErrKind (List (List Char))
  | [], args, cur, inQ =>
    if inQ then .error .unmatchedQuotes
    else if cur.isEmpty then .ok args else .ok (args ++ [cur])
  | c :: rest, args, cur, inQ =>
    if c = '"' then splitLoop rest args cur (!inQ)
    else if c = ' ' then
      if inQ then splitLoop rest args (cur ++ [c]) inQ
      else if cur.isEmpty then splitLoop rest args cur inQ
      else splitLoop rest (args ++ [cur]) [] inQ
    else splitLoop rest args (cur ++ [c]) inQ

/-- `splitCommandLine` from src/main.go. -/
def splitCommandLine (cmd : String) : Except ErrKind (List String) :=
  (splitLoop cmd.data [] [] false).map (List.map String.mk)

/-- The final value of the `inQuotes` flag after scanning `cs` starting
from `q`: whether the scan ends inside a quoted span. -/
def finalQuoteState : List Char → Bool → Bool
  | [], q => q
  | c :: rest, q => finalQuoteState rest (if c = '"' then !q else q)

/-- One entry of a directory listing, as seen by `os.ReadDir`: a name and
whether it is a subdirectory.  A real listing never repeats a name. -/
structure DirEntry where
  name : String
  isDir : Bool
deriving DecidableEq, Repr

/-- The filter step of `rotateLogs`: regular files whose name starts with
`winpsp-` and ends with `.log`. -/
def logsOf (entries : List DirEntry) : List DirEntry :=
  entries.filter (fun e => !e.isDir && strStarts e.name "winpsp-" && strEnds e.name ".log")

/-- Comparison used by `sort.Slice` in `rotateLogs`: ascending file name.
The sort needs the reflexive form; ties cannot arise in a real directory
listing, where names are distinct. -/
def entryLe (a b : DirEntry) : Bool := charsLe a.name.data b.name.data

/-- The relation `entryLe` as a decidable proposition, for
`List.insertionSort`. -/
def entryRel (a b : DirEntry) : Prop := entryLe a b = true

instance : DecidableRel entryRel := fun a b => instDecidableEqBool (entryLe a b) true

/-- The `sort.Slice(logs, by name ascending)` call of `rotateLogs`
(`sort.Slice` promises a sorted permutation; with the distinct names of a
directory listing the sorted permutation is unique, so any sorting
function models it). -/
def sortLogs (logs : List DirEntry) : List DirEntry :=
  logs.insertionSort entryRel

/-- `rotateLogs` from src/main.go, returning the names it removes: it keeps
the matching log files sorted ascending by name and, when there are more
than `maxCount` of them, deletes the first `count - maxCount` (the oldest,
oldest first).  The caller always passes the normalized non-negative
retention count. -/
def rotateLogs (entries : List DirEntry) (maxCount : Nat) : List String :=
  let logs := logsOf entries
  if logs.length ≤ maxCount then []
  else ((sortLogs logs).take (logs.length - maxCount)).map DirEntry.name

/-- A JSON value, as produced by `encoding/json` for the configuration
document. -/
inductive Json where
  | null
  | bool (b : Bool)
  | num (n : Int)
  | str (s : String)
  | arr (xs : List Json)
  | obj (kvs : List (String × Json))

/-- JSON insignificant whitespace. -/
def isJsonWs (c : Char) : Bool := c = ' ' || c = '\t' || c = '\n' || c = '\r'

/-- Skip insignificant whitespace. -/
def skipWs : List Char → List Char
  | [] => []
  | c :: rest => if isJsonWs c then skipWs rest else c :: rest

/-- Value of a single-character JSON string escape (`\u` escapes are outside
the modelled subset; no configuration document in question uses them). -/
def escChar (e : Char) : Option Char :=
  if e = '"' then some '"'
  else if e = '\\' then some '\\'
  else if e = '/' then some '/'
  else if e = 'n' then some '\n'
  else if e = 't' then some '\t'
  else if e = 'r' then some '\r'
  else if e = 'b' then some (Char.ofNat 8)
  else if e = 'f' then some (Char.ofNat 12)
  else none

/-- Parse the body of a JSON string literal, after the opening quote;
returns the decoded characters and the input following the closing quote. -/
def parseStrBody : List Char → Option (List Char × List Char)
  | [] => none
  | '"' :: rest => some ([], rest)
  | '\\' :: rest =>
    match rest with
    | [] => none
    | e :: rest2 =>
      match escChar e with
      | none => none
      | some c => (parseStrBody rest2).map (fun p => (c :: p.1, p.2))
  | c :: rest => (parseStrBody rest).map (fun p => (c :: p.1, p.2))

/-- Decimal digits to a natural number. -/
def digitsVal (acc : Nat) : List Char → Nat
  | [] => acc
  | c :: rest => digitsVal (acc * 10 + (c.toNat - 48)) rest

/-- Parse a JSON integer literal (the modelled subset has no fraction or
exponent parts; the configuration fields are integers). -/
def parseNum (cs : List Char) : Option (Json × List Char) :=
  let (neg, cs2) := match cs with
    | '-' :: rest => (true, rest)
    | _ => (false, cs)
  let ds := cs2.takeWhile Char.isDigit
  let rest := cs2.dropWhile Char.isDigit
  if ds.isEmpty then none
  else
    let v : Int := Int.ofNat (digitsVal 0 ds)
    some (.num (if neg then -v else v), rest)

/-- Check that `lit` heads the input and return what follows. -/
def dropLit : List Char → List Char → Option (List Char)
  | [], cs => some cs
  | _ :: _, [] => none
  | l :: ls, c :: cs => if l = c then dropLit ls cs else none

/-- Which production the recursive-descent parser is in: a value, the
members of an object (after the brace or a comma), or the elements of an
array (after the bracket or a comma). -/
inductive PMode where
  | val
  | members
  | elems

/-- Recursive-descent parse, fuel-indexed (structural recursion on the
fuel; at least one character is consumed every two recursion steps, so
fuel `2 * length + 2` always suffices). -/
def parseF : Nat → PMode → List Char → Option (Json × List Char)
  | 0, _, _ => none
  | fuel + 1, .val, cs =>
    match skipWs cs with
    | [] => none
    | c :: rest =>
      if c = '"' then (parseStrBody rest).map (fun p => (.str (String.mk p.1), p.2))
      else if c = lbrace then
        match skipWs rest with
        | [] => none
        | c2 :: rest2 =>
          if c2 = rbrace then some (.obj [], rest2)
          else parseF fuel .members (c2 :: rest2)
      else if c = '[' then
        match skipWs rest with
        | [] => none
        | c2 :: rest2 =>
          if c2 = ']' then some (.arr [], rest2)
          else parseF fuel .elems (c2 :: rest2)
      else if c = 't' then (dropLit ['r', 'u', 'e'] rest).map (fun r => (.bool true, r))
      else if c = 'f' then (dropLit ['a', 'l', 's', 'e'] rest).map (fun r => (.bool false, r))
      else if c = 'n' then (dropLit ['u', 'l', 'l'] rest).map (fun r => (.null, r))
      else parseNum (c :: rest)
  | fuel + 1, .members, cs =>
    match skipWs cs with
    | '"' :: rest =>
      match parseStrBody rest with
      | none => none
      | some (key, rest2) =>
        match skipWs rest2 with
        | ':' :: rest3 =>
          match parseF fuel .val rest3 with
          | none => none
          | some (v, rest4) =>
            match skipWs rest4 with
            | ',' :: rest5 =>
              match parseF fuel .members rest5 with
              | some (.obj kvs, rest6) => some (.obj ((String.mk key, v) :: kvs), rest6)
              | _ => none
            | c2 :: rest5 =>
              if c2 = rbrace then some (.obj [(String.mk key, v)], rest5) else none
            | [] => none
        | _ => none
    | _ => none
  | fuel + 1, .elems, cs =>
    match parseF fuel .val cs with
    | none => none
    | some (v, rest) =>
      match skipWs rest with
      | ',' :: rest2 =>
        match parseF fuel .elems rest2 with
        | some (.arr xs, rest3) => some (.arr (v :: xs), rest3)
        | _ => none
      | ']' :: rest2 => some (.arr [v], rest2)
      | _ => none

/-- Parse a complete JSON document (one value, optionally surrounded by
whitespace), as `json.Unmarshal` requires. -/
def parseJson (data : String) : Option Json :=
  match parseF (2 * data.data.length + 2) .val data.data with
  | none => none
  | some (j, rest) => if (skipWs rest).isEmpty then some j else none

/-- The `Config` struct of src/main.go (`command`, `log_count`, `timeout`;
Go zero values). -/
structure Config where
  Command : String := ""
  LogCount : Int := 0
  Timeout : Int := 0
deriving DecidableEq, Repr

/-- One step of `json.Unmarshal` field assignment into `Config`: the three
known keys require a string (for `command`) or an integer, `null` leaves
the field unchanged, unknown keys are ignored, later duplicates win. -/
def decodeField (c : Config) : String × Json → Option Config
  | ("command", .str s) => some { c with Command := s }
  | ("command", .null) => some c
  | ("command", _) => none
  | ("log_count", .num n) => some { c with LogCount := n }
  | ("log_count", .null) => some c
  | ("log_count", _) => none
  | ("timeout", .num n) => some { c with Timeout := n }
  | ("timeout", .null) => some c
  | ("timeout", _) => none
  | (_, _) => some c

/-- `json.Unmarshal(data, &cfg)` at the level of the parsed value: the
document must be an object (or `null`, which leaves the struct
zero-valued). -/
def decodeConfig : Json → Option Config
  | .null => some {}
  | .obj kvs => kvs.foldlM decodeField {}
  | _ => none

/-- Parse and decode the raw configuration document (the
`json.Unmarshal(data, &cfg)` call of `loadConfig`). -/
def parseConfigDoc (data : String) : Option Config :=
  (parseJson data).bind decodeConfig

/-- `defaultLogCount` from src/main.go. -/
def defaultLogCount : Int := 7

/-- `defaultTimeoutSecs` from src/main.go. -/
def defaultTimeoutSecs : Int := 300

/-- The failure modes of `loadConfig`; on each of them the Go code sets
`s.config = nil` (the absent configuration), modelled by `Except.error`. -/
inductive LoadError where
  | readError
  | parseError
  | emptyCommand
  | invalidTimeout
deriving DecidableEq, Repr

/-- `loadConfig` from src/main.go.  The input is the result of
`os.ReadFile`: `none` for a read failure, `some data` for the raw bytes.
Note the presence test for the `timeout` field is a plain substring scan
of the raw document (`strings.Contains(string(data), "\"timeout\"")`). -/
def loadConfig (file : Option String) : Except LoadError Config :=
  match file with
  | none => .error .readError
  | some data =>
    match parseConfigDoc data with
    | none => .error .parseError
    | some cfg =>
      let cmd := trimSpace cfg.Command
      if cmd = "" then .error .emptyCommand
      else
        let hasTimeoutField := strContains data "\"timeout\""
        if cfg.Timeout < 0 then .error .invalidTimeout
        else
          -- the Go switch: an explicit 0 is kept when the raw document
          -- mentions "timeout", the default is substituted otherwise,
          -- and a positive value is used as-is
          let t := if cfg.Timeout = 0 then
              (if hasTimeoutField then (0 : Int) else defaultTimeoutSecs)
            else cfg.Timeout
          let lc := if cfg.LogCount ≤ 0 then defaultLogCount else cfg.LogCount
          .ok { Command := cmd, LogCount := lc, Timeout := t }

/-- `exitCodeFromError` from src/main.go: `nil` maps to 0, every error
(including `exec.ExitError`) to the generic non-zero indicator 1. -/
def exitCodeFromError (e : Option ErrKind) : Int :=
  match e with
  | none => 0
  | some _ => 1

/-- Abstract behaviour of the configured child process, the one external
input of the runner: the spawn fails, or the process runs for
`durationSecs` seconds and then exits (cleanly iff `exitZero`). -/
inductive ProcBehavior where
  | launchFail
  | runs (exitZero : Bool) (durationSecs : Nat)
deriving DecidableEq, Repr

/-- The `(exitCode, timedOut, err)` triple returned by
`runCommandWithTimeout`. -/
structure RunResult where
  exitCode : Int
  timedOut : Bool
  err : Option ErrKind
deriving DecidableEq, Repr

/-- `runCommandWithTimeout` from src/main.go.  `timeout = 0` disables the
deadline; with a positive timeout the deadline wins exactly when the
process runs at least that long; a spawn failure returns before any
deadline can fire.  (A negative timeout never reaches this function in the
program; `context.WithTimeout` would then start expired, so every path
reports `DeadlineExceeded`.) -/
def runCommandWithTimeout (commandLine : String) (timeout : Int) (b : ProcBehavior) :
    RunResult :=
  match splitCommandLine commandLine with
  | .error e => ⟨1, false, some e⟩
  | .ok parts =>
    if parts.length = 0 then ⟨1, false, some .emptyCommandLine⟩
    else if timeout = 0 then
      match b with
      | .launchFail => ⟨exitCodeFromError (some .launchErr), false, some .launchErr⟩
      | .runs ez _ =>
        let e := if ez then none else some ErrKind.exitErr
        ⟨exitCodeFromError e, false, e⟩
    else if timeout < 0 then ⟨exitCodeFromError (some .deadlineErr), true, some .deadlineErr⟩
    else
      match b with
      | .launchFail => ⟨exitCodeFromError (some .launchErr), false, some .launchErr⟩
      | .runs ez dur =>
        if timeout ≤ (dur : Int) then
          ⟨exitCodeFromError (some .deadlineErr), true, some .deadlineErr⟩
        else
          let e := if ez then none else some ErrKind.exitErr
          ⟨exitCodeFromError e, false, e⟩

/-- One line written through `logLine` in `handleShutdownOnce`, by kind. -/
inductive MsgKind where
  | triggered
  | running (cmd : String)
  | commandError
  | timeoutMsg (secs : Int)
  | exitCodeMsg (code : Int)
  | released
deriving DecidableEq, Repr

/-- Is this one of the three outcome report lines (launch/command error,
timeout, exit code)? -/
def isOutcomeMsg : MsgKind → Bool
  | .commandError => true
  | .timeoutMsg _ => true
  | .exitCodeMsg _ => true
  | _ => false

/-- The cycle's environment: whether `openLogFile` succeeds (directory
creation plus file creation), and how the child process behaves. -/
structure Env where
  logOpenOk : Bool
  behavior : ProcBehavior
deriving DecidableEq, Repr

/-- Observable effects of one `handleShutdownOnce` call: whether the
bounded process runner was invoked, whether a log file was created, and
the lines written to it in order. -/
structure CycleEffects where
  ranRunner : Bool
  createdLogFile : Bool
  messages : List MsgKind
deriving DecidableEq, Repr

/-- `handleShutdownOnce` from src/main.go.  With no configuration it
returns at once.  Otherwise it opens the log sink (a failure degrades to
no logging), logs intent, invokes the runner, and logs the outcome:
`Command error` when a non-timeout error occurred, then `Timeout` or
`Exit code`, then `Shutdown released`. -/
def handleShutdownOnce (config : Option Config) (env : Env) : CycleEffects :=
  match config with
  | none => ⟨false, false, []⟩
  | some c =>
    let logOk := env.logOpenOk
    let log := fun (msgs : List MsgKind) (m : MsgKind) => if logOk then msgs ++ [m] else msgs
    let m1 := log [] .triggered
    let m2 := log m1 (.running c.Command)
    let r := runCommandWithTimeout c.Command c.Timeout env.behavior
    let m3 := if r.err.isSome && !r.timedOut then log m2 .commandError else m2
    let m4 := if r.timedOut then log m3 (.timeoutMsg c.Timeout)
      else log m3 (.exitCodeMsg r.exitCode)
    let m5 := log m4 .released
    ⟨true, logOk, m5⟩

/-- Is this the `Timeout after N seconds` line? -/
def isTimeoutMsg : MsgKind → Bool
  | .timeoutMsg _ => true
  | _ => false

/-- Is this the `Exit code: N` line? -/
def isExitCodeMsg : MsgKind → Bool
  | .exitCodeMsg _ => true
  | _ => false

/-- The outcome is a normal completion: no timeout, the process was
spawned, it exited (cleanly or not). -/
def normalDone (r : RunResult) : Prop :=
  r.timedOut = false ∧ (r.err = none ∨ r.err = some .exitErr)

/-- The outcome is a timeout. -/
def timedOutcome (r : RunResult) : Prop := r.timedOut = true

/-- The outcome is a launch failure: the process could not even be started
(tokenization failure, empty command, or spawn error). -/
def launchFailure (r : RunResult) : Prop :=
  r.timedOut = false ∧
    (r.err = some .unmatchedQuotes ∨ r.err = some .emptyCommandLine ∨
      r.err = some .launchErr)

/-- The matching log files still present after `rotateLogs` ran: those the
rotation did not delete. -/
def remainingLogs (entries : List DirEntry) (maxCount : Nat) : List DirEntry :=
  (logsOf entries).filter (fun e => !(decide (e.name ∈ rotateLogs entries maxCount)))

/-- A sample directory listing: three dated log files, the configuration
file, and a subdirectory. -/
def demoDir : List DirEntry :=
  [⟨"winpsp-20240103-000000.log", false⟩,
   ⟨"winpsp-20240101-000000.log", false⟩,
   ⟨"config.json", false⟩,
   ⟨"winpsp-20240102-000000.log", false⟩,
   ⟨"backups", true⟩]

/-! ### Lemmas about the tokenizer -/

theorem splitLoop_error_iff (cs : List Char) : ∀ (args : List (List Char)) (cur : List Char)
    (inQ : Bool), splitLoop cs args cur inQ = .error .unmatchedQuotes ↔
      finalQuoteState cs inQ = true := by
  induction cs with
  | nil =>
    intro args cur inQ
    cases inQ with
    | true => simp [splitLoop, finalQuoteState]
    | false => rcases cur with _ | ⟨a, as⟩ <;> simp [splitLoop, finalQuoteState]
  | cons c rest ih =>
    intro args cur inQ
    by_cases hq : c = '"'
    · simpa [splitLoop, finalQuoteState, hq] using ih args cur (!inQ)
    · by_cases hs : c = ' '
      · cases inQ with
        | true => simpa [splitLoop, finalQuoteState, hq, hs] using ih args (cur ++ [c]) true
        | false =>
          by_cases hcur : cur.isEmpty
          · simpa [splitLoop, finalQuoteState, hq, hs, hcur] using ih args cur false
          · simpa [splitLoop, finalQuoteState, hq, hs, hcur] using ih (args ++ [cur]) [] false
      · simpa [splitLoop, finalQuoteState, hq, hs] using ih args (cur ++ [c]) inQ

theorem splitLoop_error_val (cs : List Char) : ∀ (args : List (List Char)) (cur : List Char)
    (inQ : Bool) (e : ErrKind), splitLoop cs args cur inQ = .error e →
      e = .unmatchedQuotes := by
  induction cs with
  | nil =>
    intro args cur inQ e h
    cases inQ with
    | true => simpa [splitLoop] using h.symm
    | false =>
      by_cases hcur : cur.isEmpty <;> simp [splitLoop, hcur] at h
  | cons c rest ih =>
    intro args cur inQ e h
    by_cases hq : c = '"'
    · exact ih _ _ _ _ (by simpa [splitLoop, hq] using h)
    · by_cases hs : c = ' '
      · cases inQ with
        | true => exact ih _ _ _ _ (by simpa [splitLoop, hq, hs] using h)
        | false =>
          by_cases hcur : cur.isEmpty
          · exact ih _ _ _ _ (by simpa [splitLoop, hq, hs, hcur] using h)
          · exact ih _ _ _ _ (by simpa [splitLoop, hq, hs, hcur] using h)
      · exact ih _ _ _ _ (by simpa [splitLoop, hq, hs] using h)

theorem splitLoop_tokens_nonempty (cs : List Char) : ∀ (args : List (List Char))
    (cur : List Char) (inQ : Bool) (ts : List (List Char)),
    (∀ t ∈ args, t ≠ []) → splitLoop cs args cur inQ = .ok ts → ∀ t ∈ ts, t ≠ [] := by
  induction cs with
  | nil =>
    intro args cur inQ ts hargs h
    cases inQ with
    | true => simp [splitLoop] at h
    | false =>
      by_cases hcur : cur.isEmpty
      · simp [splitLoop, hcur] at h
        exact h ▸ hargs
      · simp [splitLoop, hcur] at h
        intro t ht
        rcases List.mem_append.mp (h ▸ ht) with hl | hr
        · exact hargs t hl
        · rcases List.mem_singleton.mp hr with rfl
          simpa [List.isEmpty_iff] using hcur
  | cons c rest ih =>
    intro args cur inQ ts hargs h
    by_cases hq : c = '"'
    · exact ih _ _ _ _ hargs (by simpa [splitLoop, hq] using h)
    · by_cases hs : c = ' '
      · cases inQ with
        | true => exact ih _ _ _ _ hargs (by simpa [splitLoop, hq, hs] using h)
        | false =>
          by_cases hcur : cur.isEmpty
          · exact ih _ _ _ _ hargs (by simpa [splitLoop, hq, hs, hcur] using h)
          · refine ih _ _ _ _ ?_ (by simpa [splitLoop, hq, hs, hcur] using h)
            intro t ht
            rcases List.mem_append.mp ht with hl | hr
            · exact hargs t hl
            · rcases List.mem_singleton.mp hr with rfl
              simpa [List.isEmpty_iff] using hcur
      · exact ih _ _ _ _ hargs (by simpa [splitLoop, hq, hs] using h)

theorem splitLoop_tokens_no_quote (cs : List Char) : ∀ (args : List (List Char))
    (cur : List Char) (inQ : Bool) (ts : List (List Char)),
    (∀ t ∈ args, '"' ∉ t) → '"' ∉ cur → splitLoop cs args cur inQ = .ok ts →
    ∀ t ∈ ts, '"' ∉ t := by
  induction cs with
  | nil =>
    intro args cur inQ ts hargs hcur0 h
    cases inQ with
    | true => simp [splitLoop] at h
    | false =>
      by_cases hcur : cur.isEmpty
      · simp [splitLoop, hcur] at h
        exact h ▸ hargs
      · simp [splitLoop, hcur] at h
        intro t ht
        rcases List.mem_append.mp (h ▸ ht) with hl | hr
        · exact hargs t hl
        · rcases List.mem_singleton.mp hr with rfl
          exact hcur0
  | cons c rest ih =>
    intro args cur inQ ts hargs hcur0 h
    by_cases hq : c = '"'
    · exact ih _ _ _ _ hargs hcur0 (by simpa [splitLoop, hq] using h)
    · by_cases hs : c = ' '
      · cases inQ with
        | true =>
          refine ih _ _ _ _ hargs ?_ (by simpa [splitLoop, hq, hs] using h)
          intro hmem
          rcases List.mem_append.mp hmem with hc | hc
          · exact hcur0 hc
          · exact absurd (List.mem_singleton.mp hc) (by decide)
        | false =>
          by_cases hcur : cur.isEmpty
          · exact ih _ _ _ _ hargs hcur0 (by simpa [splitLoop, hq, hs, hcur] using h)
          · refine ih _ _ _ _ ?_ (List.not_mem_nil _)
              (by simpa [splitLoop, hq, hs, hcur] using h)
            intro t ht
            rcases List.mem_append.mp ht with hl | hr
            · exact hargs t hl
            · rcases List.mem_singleton.mp hr with rfl
              exact hcur0
      · refine ih _ _ _ _ hargs ?_ (by simpa [splitLoop, hq, hs] using h)
        intro hmem
        rcases List.mem_append.mp hmem with hc | hc
        · exact hcur0 hc
        · exact hq (List.mem_singleton.mp hc).symm

theorem splitCommandLine_error_iff (cmd : String) :
    splitCommandLine cmd = .error .unmatchedQuotes ↔
      finalQuoteState cmd.data false = true := by
  unfold splitCommandLine
  rcases h : splitLoop cmd.data [] [] false with e | ts
  · have he := splitLoop_error_val cmd.data [] [] false e h
    subst he
    simpa [Except.map] using (splitLoop_error_iff cmd.data [] [] false).mp h
  · have : ¬ finalQuoteState cmd.data false = true := by
      intro hq
      have := (splitLoop_error_iff cmd.data [] [] false).mpr hq
      rw [h] at this
      exact Except.noConfusion this
    simp [Except.map, this]

theorem splitCommandLine_error_val {cmd : String} {e : ErrKind}
    (h : splitCommandLine cmd = .error e) : e = .unmatchedQuotes := by
  unfold splitCommandLine at h
  rcases h2 : splitLoop cmd.data [] [] false with e2 | ts <;> rw [h2] at h
  · have : e2 = e := by simpa [Except.map] using h
    exact this ▸ splitLoop_error_val cmd.data [] [] false e2 h2
  · simp [Except.map] at h

/-! ### Claim theorems for the tokenizer -/

/-- C7: tokenizing `"C:\Program Files\app.exe" --flag value` yields the
three expected tokens; `open "unterminated` yields the unmatched-quote
error; consecutive unquoted spaces collapse; a double quote toggles the
quoted span and is consumed, never appended (no returned token contains a
quote character); and a scan that ends inside a quoted span is an error. -/
theorem splitCommandLine_spec_examples :
    splitCommandLine "\"C:\\Program Files\\app.exe\" --flag value" =
      .ok ["C:\\Program Files\\app.exe", "--flag", "value"] ∧
    splitCommandLine "open \"unterminated" = .error .unmatchedQuotes ∧
    splitCommandLine "a  b" = .ok ["a", "b"] ∧
    (∀ cmd ts, splitCommandLine cmd = .ok ts → ∀ t ∈ ts, '"' ∉ t.data) ∧
    (∀ cmd, finalQuoteState cmd.data false = true →
      splitCommandLine cmd = .error .unmatchedQuotes) := by
  refine ⟨by rfl, by rfl, by rfl, ?_, ?_⟩
  · intro cmd ts h t ht
    unfold splitCommandLine at h
    rcases h2 : splitLoop cmd.data [] [] false with e | ts0 <;> rw [h2] at h
    · exact absurd h (by simp [Except.map])
    · simp only [Except.map, Except.ok.injEq] at h
      subst h
      rcases List.mem_map.mp ht with ⟨t0, ht0, rfl⟩
      exact splitLoop_tokens_no_quote cmd.data [] [] false ts0
        (fun t h => absurd h (List.not_mem_nil _)) (List.not_mem_nil _) h2 t0 ht0
  · intro cmd hq
    exact (splitCommandLine_error_iff cmd).mpr hq

theorem splitCommandLine_spec_examples_witness :
    ('"' ∉ ("ab" : String).data) ∧
    splitCommandLine "x \"y" = .error .unmatchedQuotes :=
  ⟨splitCommandLine_spec_examples.2.2.2.1 "ab" ["ab"] (by rfl) "ab" (by simp),
   splitCommandLine_spec_examples.2.2.2.2 "x \"y" (by rfl)⟩

/-- C8: within the runner, the unmatched-quote error is reported exactly
when the scan ends inside a quoted span, and the empty-command error is
reported exactly when tokenization succeeds with zero tokens. -/
theorem tokenize_error_conditions (cmd : String) (t : Int) (b : ProcBehavior) :
    ((runCommandWithTimeout cmd t b).err = some .unmatchedQuotes ↔
      finalQuoteState cmd.data false = true) ∧
    ((runCommandWithTimeout cmd t b).err = some .emptyCommandLine ↔
      (finalQuoteState cmd.data false = false ∧ splitCommandLine cmd = .ok [])) := by
  rcases h : splitCommandLine cmd with e | parts
  · have he := splitCommandLine_error_val h
    subst he
    have hq : finalQuoteState cmd.data false = true :=
      (splitCommandLine_error_iff cmd).mp h
    refine ⟨?_, ?_⟩ <;> simp [runCommandWithTimeout, h, hq]
  · have hq : finalQuoteState cmd.data false = false := by
      cases hfq : finalQuoteState cmd.data false with
      | false => rfl
      | true =>
        have h2 := (splitCommandLine_error_iff cmd).mpr hfq
        rw [h] at h2
        exact Except.noConfusion h2
    by_cases hlen : parts.length = 0
    · have hnil : parts = [] := List.length_eq_zero.mp hlen
      subst hnil
      refine ⟨?_, ?_⟩ <;> simp [runCommandWithTimeout, h, hq]
    · have hne : parts ≠ [] := by
        intro hh
        exact hlen (by simp [hh])
      refine ⟨?_, ?_⟩ <;>
        by_cases ht0 : t = 0 <;>
        rcases b with _ | ⟨ez, dur⟩ <;>
        first
          | (cases ez <;>
              by_cases htneg : t < 0 <;>
              by_cases hdur : t ≤ (dur : Int) <;>
              simp [runCommandWithTimeout, h, hq, hlen, ht0, htneg, hdur,
                exitCodeFromError, hne])
          | (by_cases htneg : t < 0 <;>
              simp [runCommandWithTimeout, h, hq, hlen, ht0, htneg,
                exitCodeFromError, hne])

/-- C9: every token of a successful tokenization is non-empty, and an
empty quoted span contributes no token. -/
theorem splitCommandLine_tokens_nonempty :
    (∀ cmd ts, splitCommandLine cmd = .ok ts → ∀ t ∈ ts, t ≠ "") ∧
    splitCommandLine "a \"\" b" = .ok ["a", "b"] := by
  refine ⟨?_, by rfl⟩
  intro cmd ts h t ht
  unfold splitCommandLine at h
  rcases h2 : splitLoop cmd.data [] [] false with e | ts0 <;> rw [h2] at h
  · exact absurd h (by simp [Except.map])
  · simp only [Except.map, Except.ok.injEq] at h
    subst h
    rcases List.mem_map.mp ht with ⟨t0, ht0, rfl⟩
    have hne := splitLoop_tokens_nonempty cmd.data [] [] false ts0
      (fun t h => absurd h (List.not_mem_nil _)) h2 t0 ht0
    intro hq
    apply hne
    have h3 : (String.mk t0).data = ("" : String).data := by rw [hq]
    simpa using h3

theorem splitCommandLine_tokens_nonempty_witness : ("a" : String) ≠ "" :=
  splitCommandLine_tokens_nonempty.1 "a \"\" b" ["a", "b"] (by rfl) "a" (by simp)

/-! ### Lemmas about the bounded process runner and the cycle controller -/

theorem runCommand_timedOut_iff (cmd : String) (t : Int) (b : ProcBehavior) :
    (runCommandWithTimeout cmd t b).timedOut = true ↔
      (runCommandWithTimeout cmd t b).err = some .deadlineErr := by
  rcases h : splitCommandLine cmd with e | parts
  · have he := splitCommandLine_error_val h
    subst he
    simp [runCommandWithTimeout, h]
  · by_cases hlen : parts.length = 0
    · simp [runCommandWithTimeout, h, hlen]
    · by_cases ht0 : t = 0 <;>
        rcases b with _ | ⟨ez, dur⟩ <;>
        first
          | (cases ez <;>
              by_cases htneg : t < 0 <;>
              by_cases hdur : t ≤ (dur : Int) <;>
              simp [runCommandWithTimeout, h, hlen, ht0, htneg, hdur, exitCodeFromError])
          | (by_cases htneg : t < 0 <;>
              simp [runCommandWithTimeout, h, hlen, ht0, htneg, exitCodeFromError])

/-- C3 (amended): every runner outcome is exactly one of normal
completion, timeout, launch failure (`timedOut` and a launch error are
mutually exclusive); a logged cycle records exactly one of the
timeout/exit-code lines, and additionally records the command-error line
precisely when a non-timeout error occurred — so a launch failure is
reported alongside the exit-code line, not instead of it. -/
theorem outcome_classification (cmd : String) (t : Int) (b : ProcBehavior)
    (c : Config) (env : Env) (hlog : env.logOpenOk = true) :
    ((normalDone (runCommandWithTimeout cmd t b) ∨
        timedOutcome (runCommandWithTimeout cmd t b) ∨
        launchFailure (runCommandWithTimeout cmd t b)) ∧
      ¬ (normalDone (runCommandWithTimeout cmd t b) ∧
          timedOutcome (runCommandWithTimeout cmd t b)) ∧
      ¬ (normalDone (runCommandWithTimeout cmd t b) ∧
          launchFailure (runCommandWithTimeout cmd t b)) ∧
      ¬ (timedOutcome (runCommandWithTimeout cmd t b) ∧
          launchFailure (runCommandWithTimeout cmd t b))) ∧
    (((handleShutdownOnce (some c) env).messages.filter isTimeoutMsg).length +
      ((handleShutdownOnce (some c) env).messages.filter isExitCodeMsg).length = 1) ∧
    (MsgKind.commandError ∈ (handleShutdownOnce (some c) env).messages ↔
      ((runCommandWithTimeout c.Command c.Timeout env.behavior).err.isSome = true ∧
        (runCommandWithTimeout c.Command c.Timeout env.behavior).timedOut = false)) := by
  refine ⟨?_, ?_, ?_⟩
  · have hiff := runCommand_timedOut_iff cmd t b
    rcases herr : (runCommandWithTimeout cmd t b).err with _ | ek
    · rw [herr] at hiff
      simp only [reduceCtorEq, iff_false, Bool.not_eq_true] at hiff
      simp [normalDone, timedOutcome, launchFailure, herr, hiff]
    · rw [herr] at hiff
      cases ek <;>
        simp only [Option.some.injEq, reduceCtorEq, iff_false, iff_true,
          Bool.not_eq_true] at hiff <;>
        simp [normalDone, timedOutcome, launchFailure, herr, hiff]
  · cases h1 : (runCommandWithTimeout c.Command c.Timeout env.behavior).err.isSome <;>
      cases h2 : (runCommandWithTimeout c.Command c.Timeout env.behavior).timedOut <;>
      simp [handleShutdownOnce, hlog, h1, h2, isTimeoutMsg, isExitCodeMsg]
  · cases h1 : (runCommandWithTimeout c.Command c.Timeout env.behavior).err.isSome <;>
      cases h2 : (runCommandWithTimeout c.Command c.Timeout env.behavior).timedOut <;>
      simp [handleShutdownOnce, hlog, h1, h2]

theorem outcome_classification_witness :
    normalDone (runCommandWithTimeout "x" 300 (.runs true 1)) ∨
    timedOutcome (runCommandWithTimeout "x" 300 (.runs true 1)) ∨
    launchFailure (runCommandWithTimeout "x" 300 (.runs true 1)) :=
  (outcome_classification "x" 300 (.runs true 1) ⟨"x", 7, 300⟩
    ⟨true, .runs true 1⟩ rfl).1.1

/-- C3 counterexample: on a launch failure the controller logs both the
command-error line and the exit-code line — two of the three outcome
messages in one cycle, not exactly one. -/
theorem outcome_message_not_unique :
    ((handleShutdownOnce (some ⟨"nosuch.exe", 7, 300⟩)
        ⟨true, .launchFail⟩).messages.filter isOutcomeMsg).length = 2 ∧
    ¬ (((handleShutdownOnce (some ⟨"nosuch.exe", 7, 300⟩)
        ⟨true, .launchFail⟩).messages.filter isOutcomeMsg).length = 1) := by
  decide

/-! ### Claim theorems for the configuration normalizer -/

/-- C2: every malformed, missing, empty-command or negative-timeout
configuration input loads as absent (an error), and a cycle run with an
absent configuration returns immediately: no runner invocation, no log
file, no log lines. -/
theorem fail_open_on_bad_config :
    (∀ env, handleShutdownOnce none env = ⟨false, false, []⟩) ∧
    loadConfig none = .error .readError ∧
    (∀ data, parseConfigDoc data = none →
      loadConfig (some data) = .error .parseError) ∧
    (∀ data c, parseConfigDoc data = some c → trimSpace c.Command = "" →
      loadConfig (some data) = .error .emptyCommand) ∧
    (∀ data c, parseConfigDoc data = some c → trimSpace c.Command ≠ "" →
      c.Timeout < 0 → loadConfig (some data) = .error .invalidTimeout) ∧
    (∀ file e env, loadConfig file = .error e →
      handleShutdownOnce (loadConfig file).toOption env = ⟨false, false, []⟩) := by
  refine ⟨fun env => rfl, rfl, ?_, ?_, ?_, ?_⟩
  · intro data hp
    simp [loadConfig, hp]
  · intro data c hp hcmd
    simp [loadConfig, hp, hcmd]
  · intro data c hp hcmd ht
    simp [loadConfig, hp, hcmd, ht]
  · intro file e env h
    rw [h]
    rfl

theorem fail_open_on_bad_config_witness :
    loadConfig (some "not json") = .error .parseError ∧
    loadConfig (some "\x7b\"command\": \"  \"\x7d") = .error .emptyCommand ∧
    loadConfig (some "\x7b\"command\": \"x\", \"timeout\": -5\x7d") =
      .error .invalidTimeout ∧
    handleShutdownOnce (loadConfig none).toOption ⟨true, .launchFail⟩ =
      ⟨false, false, []⟩ :=
  ⟨fail_open_on_bad_config.2.2.1 "not json" (by rfl),
   fail_open_on_bad_config.2.2.2.1 _ ⟨"  ", 0, 0⟩ (by rfl) (by rfl),
   fail_open_on_bad_config.2.2.2.2.1 _ ⟨"x", 0, -5⟩ (by rfl) (by decide) (by decide),
   fail_open_on_bad_config.2.2.2.2.2 none .readError ⟨true, .launchFail⟩ (by rfl)⟩

/-- C1 counterexample: the document whose only member is
`"command": "timeout"` omits the `timeout` field, yet `loadConfig` keeps
timeout 0 (wait indefinitely) instead of substituting the default 300,
because the raw-text substring scan finds `"timeout"` inside the command
value. -/
theorem timeout_field_heuristic_counterexample :
    parseJson "\x7b\"command\": \"timeout\"\x7d" =
      some (.obj [("command", .str "timeout")]) ∧
    loadConfig (some "\x7b\"command\": \"timeout\"\x7d") = .ok ⟨"timeout", 7, 0⟩ ∧
    ¬ (loadConfig (some "\x7b\"command\": \"timeout\"\x7d") =
        .ok ⟨"timeout", 7, 300⟩) := by
  refine ⟨by rfl, by rfl, ?_⟩
  intro h
  have h2 : loadConfig (some "\x7b\"command\": \"timeout\"\x7d") =
      .ok ⟨"timeout", 7, 0⟩ := by rfl
  rw [h2] at h
  have h3 : (0 : Int) = 300 := congrArg Config.Timeout (Except.ok.inj h)
  norm_num at h3

/-- C1 (amended): the normalizer detects presence of the `timeout` field
by scanning the raw document text for the substring `"timeout"`.  With a
decoded timeout of 0: if the raw text contains that substring (as it does
whenever the field is explicitly written), the result keeps timeout 0; if
it does not (in particular when the field is absent and no other text
mentions it), the result gets the default 300.  A document omitting the
field whose command string mentions `timeout` therefore keeps 0. -/
theorem timeout_field_normalization (data : String) (c : Config)
    (hp : parseConfigDoc data = some c) (hcmd : trimSpace c.Command ≠ "")
    (ht0 : c.Timeout = 0) :
    loadConfig (some data) = .ok ⟨trimSpace c.Command,
      if c.LogCount ≤ 0 then 7 else c.LogCount,
      if strContains data "\"timeout\"" = true then 0 else 300⟩ := by
  simp [loadConfig, hp, hcmd, ht0, defaultLogCount, defaultTimeoutSecs]

theorem timeout_field_normalization_witness :
    loadConfig (some "\x7b\"command\": \"x\", \"timeout\": 0\x7d") = .ok ⟨"x", 7, 0⟩ :=
  (timeout_field_normalization _ ⟨"x", 0, 0⟩ (by rfl) (by decide) rfl).trans
    (congrArg Except.ok (by decide))

/-- C5 counterexample: an explicit `log_count: 0` is collapsed with
"absent" to the default 7, and a log file is still created, so a zero
retention count does not disable log writing. -/
theorem log_count_zero_counterexample :
    loadConfig (some "\x7b\"command\": \"x\", \"log_count\": 0\x7d") =
      .ok ⟨"x", 7, 300⟩ ∧
    (handleShutdownOnce
      (loadConfig (some "\x7b\"command\": \"x\", \"log_count\": 0\x7d")).toOption
      ⟨true, .runs true 1⟩).createdLogFile = true ∧
    ¬ ((loadConfig (some "\x7b\"command\": \"x\", \"log_count\": 0\x7d")).toOption =
        some ⟨"x", 0, 300⟩) := by
  refine ⟨by rfl, by rfl, by decide⟩

/-- C5 (amended): a decoded `log_count` of 0 — explicitly zero or absent,
indeed any value ≤ 0 — is normalized to the default retention 7, and a
log file is created whenever the log sink opens, so zero retention never
suppresses log writing. -/
theorem log_count_normalization :
    (∀ data c, parseConfigDoc data = some c → trimSpace c.Command ≠ "" →
      ¬ c.Timeout < 0 → c.LogCount ≤ 0 →
      ∃ cfg, loadConfig (some data) = .ok cfg ∧ cfg.LogCount = 7) ∧
    (∀ cfg env, (handleShutdownOnce (some cfg) env).createdLogFile =
      env.logOpenOk) := by
  constructor
  · intro data c hp hcmd ht hlc
    refine ⟨⟨trimSpace c.Command, 7,
      if c.Timeout = 0 then
        (if strContains data "\"timeout\"" = true then 0 else 300)
      else c.Timeout⟩, ?_, rfl⟩
    simp [loadConfig, hp, hcmd, ht, hlc, defaultLogCount, defaultTimeoutSecs]
  · intro cfg env
    rfl

theorem log_count_normalization_witness :
    ∃ cfg, loadConfig (some "\x7b\"command\": \"x\", \"log_count\": 0\x7d") =
      .ok cfg ∧ cfg.LogCount = 7 :=
  log_count_normalization.1 _ ⟨"x", 0, 0⟩ (by rfl) (by decide) (by decide) (by decide)

/-! ### Lemmas about the lexicographic order and the log rotator -/

theorem str_ext {s t : String} (h : s.data = t.data) : s = t := by
  cases s
  cases t
  exact congrArg String.mk h

theorem charsLe_total (a : List Char) : ∀ b, charsLe a b = true ∨ charsLe b a = true := by
  induction a with
  | nil =>
    intro b
    left
    simp [charsLe]
  | cons x xs ih =>
    intro b
    cases b with
    | nil =>
      right
      simp [charsLe]
    | cons y ys =>
      rcases lt_trichotomy x y with h | h | h
      · left
        simp [charsLe, h]
      · subst h
        rcases ih ys with h2 | h2
        · left
          simp [charsLe, lt_irrefl x, h2]
        · right
          simp [charsLe, lt_irrefl x, h2]
      · right
        simp [charsLe, h]

theorem charsLe_trans : ∀ a b c : List Char,
    charsLe a b = true → charsLe b c = true → charsLe a c = true := by
  intro a
  induction a with
  | nil =>
    intro b c h1 h2
    simp [charsLe]
  | cons x xs ih =>
    intro b c h1 h2
    cases b with
    | nil => simp [charsLe] at h1
    | cons y ys =>
      cases c with
      | nil => simp [charsLe] at h2
      | cons z zs =>
        rcases lt_trichotomy x y with hxy | hxy | hxy
        · rcases lt_trichotomy y z with hyz | hyz | hyz
          · simp [charsLe, lt_trans hxy hyz]
          · subst hyz
            simp [charsLe, hxy]
          · simp [charsLe, lt_asymm hyz, hyz] at h2
        · subst hxy
          rcases lt_trichotomy x z with hyz | hyz | hyz
          · simp [charsLe, hyz]
          · subst hyz
            have h1' : charsLe xs ys = true := by
              simpa [charsLe, lt_irrefl x] using h1
            have h2' : charsLe ys zs = true := by
              simpa [charsLe, lt_irrefl x] using h2
            simp [charsLe, lt_irrefl x, ih ys zs h1' h2']
          · simp [charsLe, lt_asymm hyz, hyz] at h2
        · simp [charsLe, lt_asymm hxy, hxy] at h1

theorem charsLt_of_le_of_ne : ∀ a b : List Char,
    charsLe a b = true → a ≠ b → charsLt a b = true := by
  intro a
  induction a with
  | nil =>
    intro b h1 h2
    cases b with
    | nil => exact absurd rfl h2
    | cons y ys => simp [charsLt]
  | cons x xs ih =>
    intro b h1 h2
    cases b with
    | nil => simp [charsLe] at h1
    | cons y ys =>
      rcases lt_trichotomy x y with hxy | hxy | hxy
      · simp [charsLt, hxy]
      · subst hxy
        have h1' : charsLe xs ys = true := by
          simpa [charsLe, lt_irrefl x] using h1
        have hne : xs ≠ ys := by
          intro hh
          exact h2 (by rw [hh])
        simp [charsLt, lt_irrefl x, ih ys h1' hne]
      · simp [charsLe, lt_asymm hxy, hxy] at h1

instance : IsTotal DirEntry entryRel :=
  ⟨fun a b => charsLe_total a.name.data b.name.data⟩

instance : IsTrans DirEntry entryRel :=
  ⟨fun a b c h1 h2 => charsLe_trans a.name.data b.name.data c.name.data h1 h2⟩

theorem sortLogs_pairwise (logs : List DirEntry) :
    List.Pairwise entryRel (sortLogs logs) :=
  List.sorted_insertionSort entryRel logs

theorem sortLogs_perm (logs : List DirEntry) : (sortLogs logs).Perm logs :=
  List.perm_insertionSort entryRel logs

/-! ### Claim theorems for the log rotator -/

/-- C6: with N matching log files bearing distinct names and a retention
count R strictly between 0 and N, rotation deletes exactly N − R names —
the smallest, reported oldest first in strictly ascending order — and
exactly R matching files remain, every one of them lexicographically
greater than every deleted name (so the R greatest survive). -/
theorem rotation_bound (entries : List DirEntry) (R : Nat)
    (hnd : (entries.map DirEntry.name).Nodup)
    (hR : 0 < R) (hRN : R < (logsOf entries).length) :
    (rotateLogs entries R).length = (logsOf entries).length - R ∧
    (remainingLogs entries R).length = R ∧
    (∀ d ∈ rotateLogs entries R, ∀ e ∈ remainingLogs entries R,
      charsLt d.data e.name.data = true) ∧
    List.Pairwise (fun a b => charsLt a.data b.data = true)
      (rotateLogs entries R) := by
  have hsub : (logsOf entries).Sublist entries := List.filter_sublist entries
  have hndlogs : ((logsOf entries).map DirEntry.name).Nodup :=
    List.Nodup.sublist (hsub.map DirEntry.name) hnd
  have hperm : (sortLogs (logsOf entries)).Perm (logsOf entries) := sortLogs_perm _
  have hpw : List.Pairwise entryRel (sortLogs (logsOf entries)) := sortLogs_pairwise _
  have hndsorted : ((sortLogs (logsOf entries)).map DirEntry.name).Nodup :=
    ((hperm.map DirEntry.name).nodup_iff).mpr hndlogs
  set S := sortLogs (logsOf entries) with hS
  set K := (logsOf entries).length - R with hK
  have hlen : S.length = (logsOf entries).length := hperm.length_eq
  have hnotle : ¬ ((logsOf entries).length ≤ R) := by omega
  have hdel : rotateLogs entries R = (S.take K).map DirEntry.name := by
    simp only [rotateLogs]
    rw [if_neg hnotle]
  have hsplit : S.take K ++ S.drop K = S := List.take_append_drop K S
  obtain ⟨hpwT, hpwD, hcross⟩ : List.Pairwise entryRel (S.take K) ∧
      List.Pairwise entryRel (S.drop K) ∧
      ∀ a ∈ S.take K, ∀ b ∈ S.drop K, entryRel a b := by
    have h := hpw
    rw [← hsplit] at h
    exact List.pairwise_append.mp h
  obtain ⟨hndT, hndD, hdisj⟩ : ((S.take K).map DirEntry.name).Nodup ∧
      ((S.drop K).map DirEntry.name).Nodup ∧
      ((S.take K).map DirEntry.name).Disjoint ((S.drop K).map DirEntry.name) := by
    have h := hndsorted
    rw [← hsplit, List.map_append] at h
    exact List.nodup_append.mp h
  have hmemT : ∀ e ∈ S.take K, e.name ∈ rotateLogs entries R := by
    intro e he
    rw [hdel]
    exact List.mem_map_of_mem _ he
  have hmemD : ∀ e ∈ S.drop K, e.name ∉ rotateLogs entries R := by
    intro e he hmem
    rw [hdel] at hmem
    exact hdisj hmem (List.mem_map_of_mem _ he)
  have hrem : remainingLogs entries R =
      (logsOf entries).filter
        (fun e => !(decide (e.name ∈ rotateLogs entries R))) := rfl
  have hfilterS : S.filter (fun e => !(decide (e.name ∈ rotateLogs entries R))) =
      S.drop K := by
    conv_lhs => rw [← hsplit]
    rw [List.filter_append]
    have h1 : (S.take K).filter
        (fun e => !(decide (e.name ∈ rotateLogs entries R))) = [] := by
      apply List.filter_eq_nil_iff.mpr
      intro e he
      simp [hmemT e he]
    have h2 : (S.drop K).filter
        (fun e => !(decide (e.name ∈ rotateLogs entries R))) = S.drop K := by
      apply List.filter_eq_self.mpr
      intro e he
      simp [hmemD e he]
    rw [h1, h2, List.nil_append]
  have hremperm : (remainingLogs entries R).Perm (S.drop K) := by
    rw [hrem, ← hfilterS]
    exact (List.Perm.filter _ hperm).symm
  refine ⟨?_, ?_, ?_, ?_⟩
  · rw [hdel, List.length_map, List.length_take]
    omega
  · rw [hremperm.length_eq, List.length_drop]
    omega
  · intro d hd e he
    rw [hdel] at hd
    rcases List.mem_map.mp hd with ⟨x, hxT, rfl⟩
    have heD : e ∈ S.drop K := (hremperm.mem_iff).mp he
    have hle : entryRel x e := hcross x hxT e heD
    have hne : x.name ≠ e.name := by
      intro hh
      exact hdisj (List.mem_map_of_mem _ hxT) (hh ▸ List.mem_map_of_mem _ heD)
    exact charsLt_of_le_of_ne _ _ hle (fun hdata => hne (str_ext hdata))
  · rw [hdel, List.pairwise_map]
    have hpwT2 : List.Pairwise (fun a b : DirEntry => a.name ≠ b.name) (S.take K) :=
      List.pairwise_map.mp hndT
    exact (hpwT.and hpwT2).imp
      (fun hab => charsLt_of_le_of_ne _ _ hab.1 (fun hd => hab.2 (str_ext hd)))

theorem rotation_bound_witness :
    (rotateLogs demoDir 1).length = (logsOf demoDir).length - 1 ∧
    (remainingLogs demoDir 1).length = 1 ∧
    (∀ d ∈ rotateLogs demoDir 1, ∀ e ∈ remainingLogs demoDir 1,
      charsLt d.data e.name.data = true) ∧
    List.Pairwise (fun a b => charsLt a.data b.data = true) (rotateLogs demoDir 1) :=
  rotation_bound demoDir 1 (by decide) (by decide) (by decide)

/-- C4 counterexample: with retention 0 and one matching log file present,
rotation deletes that file rather than nothing. -/
theorem retention_zero_counterexample :
    rotateLogs [⟨"winpsp-20240101-000000.log", false⟩] 0 =
      ["winpsp-20240101-000000.log"] ∧
    ¬ (rotateLogs [⟨"winpsp-20240101-000000.log", false⟩] 0 = []) :=
  ⟨by rfl, by decide⟩

/-- C4 (amended): a retention count of 0 makes `rotateLogs` delete every
matching log file whenever any exist — the `count ≤ maxCount` guard only
skips deletion when there are none.  The running program never reaches
this case, because `loadConfig` normalizes `log_count` values ≤ 0 to the
default 7. -/
theorem retention_zero_deletes_all (entries : List DirEntry) :
    (logsOf entries = [] → rotateLogs entries 0 = []) ∧
    (logsOf entries ≠ [] →
      (rotateLogs entries 0).length = (logsOf entries).length ∧
      ∀ e ∈ logsOf entries, e.name ∈ rotateLogs entries 0) := by
  constructor
  · intro h
    simp [rotateLogs, h]
  · intro h
    have hlen0 : (logsOf entries).length ≠ 0 := by
      simpa [List.length_eq_zero] using h
    have hnotle : ¬ ((logsOf entries).length ≤ 0) := by omega
    have hperm := sortLogs_perm (logsOf entries)
    have hlen := hperm.length_eq
    have htake : (sortLogs (logsOf entries)).take ((logsOf entries).length - 0) =
        sortLogs (logsOf entries) := List.take_of_length_le (by omega)
    constructor
    · simp only [rotateLogs]
      rw [if_neg hnotle, htake, List.length_map, hlen]
    · intro e he
      simp only [rotateLogs]
      rw [if_neg hnotle, htake]
      exact List.mem_map_of_mem _ ((hperm.mem_iff).mpr he)

theorem retention_zero_deletes_all_witness :
    (rotateLogs demoDir 0).length = (logsOf demoDir).length ∧
    ∀ e ∈ logsOf demoDir, e.name ∈ rotateLogs demoDir 0 :=
  (retention_zero_deletes_all demoDir).2 (by decide)

/-- C10: every name rotation deletes belongs to a non-directory entry of
the listing whose name starts with `winpsp-` and ends with `.log`;
directories and files outside the naming convention are never removed. -/
theorem rotate_only_matching (entries : List DirEntry) (maxCount : Nat) :
    ∀ n ∈ rotateLogs entries maxCount, ∃ e, e ∈ entries ∧ e.name = n ∧
      e.isDir = false ∧ strStarts n "winpsp-" = true ∧ strEnds n ".log" = true := by
  intro n hn
  simp only [rotateLogs] at hn
  by_cases hle : (logsOf entries).length ≤ maxCount
  · rw [if_pos hle] at hn
    exact absurd hn (List.not_mem_nil n)
  · rw [if_neg hle] at hn
    rcases List.mem_map.mp hn with ⟨e, heT, rfl⟩
    have heS : e ∈ sortLogs (logsOf entries) := (List.take_sublist _ _).subset heT
    have heL : e ∈ logsOf entries := (sortLogs_perm _).mem_iff.mp heS
    rcases List.mem_filter.mp heL with ⟨heE, hpred⟩
    simp only [Bool.and_eq_true, Bool.not_eq_true'] at hpred
    obtain ⟨⟨h1, h2⟩, h3⟩ := hpred
    exact ⟨e, heE, rfl, h1, h2, h3⟩

theorem rotate_only_matching_witness :
    ∃ e, e ∈ demoDir ∧ e.name = "winpsp-20240101-000000.log" ∧
      e.isDir = false ∧ strStarts "winpsp-20240101-000000.log" "winpsp-" = true ∧
      strEnds "winpsp-20240101-000000.log" ".log" = true :=
  rotate_only_matching demoDir 1 "winpsp-20240101-000000.log" (by decide)

end WinPSP
